import Mathlib

/-!
# Verification of the sawavi block-processing engine

Shallow embedding of the real-time render engine of the `sawavi`
repository, together with theorems checking the natural-language
specification against it.

The repository contains two crates:

* `sing_like_coding` (namespace `SLC` below): the current engine —
  `model/track.rs` with `compute_midi`, `prepare_module_event`,
  `prepare_module_audio` and `process_module`.
* the top-level `src` crate (namespace `Sawavi` below): the earlier
  iteration — `singer.rs` with `compute_play_position` and the block
  entry point `Singer::process`, and `model/track.rs` with the
  per-track module loop `Track::process`.

Conventions of the embedding:

* `usize`/`u32`/`u8` become `Nat`; `i64`/`i16` become `Int`
  (the values involved never approach the machine-word bounds, and no
  wrapping arithmetic occurs in the embedded code paths).
* `f32`/`f64` sample, velocity and parameter values are carried as `ℚ`;
  the embedded code only copies, divides by constants, and compares
  them, so exact rational arithmetic is a faithful model of the data
  flow (`f64::round` is modelled by `rust_round` below, half away from
  zero, as documented for Rust).
* Rust indexing `v[i]` panics when out of range; the embedding uses
  `get?`/`getD` with a default and is applied in theorems only under
  in-range hypotheses (the spec classifies out-of-range bindings as
  `InvalidBinding` configuration faults rejected before rendering).
* External plugin instances (CLAP FFI) are modelled by the data the
  engine reads and writes (`ProcessData`) plus an oracle
  `process_result` for the outcome of the foreign `process` call.
-/

namespace SLC

/-- Rust `Range<usize>` as used for tick windows (`start..end`,
half-open). The field `end` is a Lean keyword, so it is named `stop`. -/
structure URange where
  start : Nat
  stop : Nat
deriving Repr, DecidableEq, Inhabited

/-- Rust `Range::contains`: `start <= t && t < end`. -/
def URange.containsTick (r : URange) (t : Nat) : Bool :=
  r.start ≤ t && t < r.stop

/-- `LaneItem::Note` payload (`note.key`, `note.velocity`, `note.off`)
together with its sub-line `delay`. -/
structure Note where
  key : Int
  velocity : ℚ
  off : Bool
  delay : Nat
deriving Repr, DecidableEq, Inhabited

/-- `LaneItem::Point` payload: a normalized automation sample. -/
structure Point where
  value : Nat
  automation_params_index : Nat
  delay : Nat
deriving Repr, DecidableEq, Inhabited

/-- `LaneItem`: tagged variant stored at a line of a lane. -/
inductive LaneItem where
  | note (n : Note)
  | point (p : Point)
deriving Repr, DecidableEq, Inhabited

/-- `item.delay()`: the sub-line delay of either variant. -/
def LaneItem.delay : LaneItem → Nat
  | .note n => n.delay
  | .point p => p.delay

/-- A `Lane`: the Rust `BTreeMap<usize, LaneItem>` is embedded as its
lookup function (the engine only ever queries it at a given line). -/
structure Lane where
  items : Nat → Option LaneItem

/-- `common::event::Event`, the per-block translated event queue
entries.  The `f64` parameter value is carried as `ℚ`. -/
inductive Event where
  | noteOn (key : Int) (velocity : ℚ) (delay : Nat)
  | noteOff (key : Int) (delay : Nat)
  | noteAllOff
  | paramValue (module_index : Nat) (param_id : Nat) (value : ℚ) (delay : Nat)
deriving Repr, DecidableEq, Inhabited

/-- An event pushed into a plugin's input-event buffer by
`input_note_on` / `input_note_off` / `input_param_value`. -/
inductive InEvent where
  | note_on (key : Int) (velocity : ℚ) (channel : Nat) (delay : Nat)
  | note_off (key : Int) (channel : Nat) (delay : Nat)
  | param_value (param_id : Nat) (value : ℚ) (delay : Nat)
deriving Repr, DecidableEq, Inhabited

/-- The per-plugin CLAP process data the engine reads and writes:
audio buffers indexed `[port][channel][frame]`, per-port `u64`
constant masks, and the input-event buffer. -/
structure ProcessData where
  buffer_in : List (List (List ℚ))
  buffer_out : List (List (List ℚ))
  constant_mask_in : List Nat
  constant_mask_out : List Nat
  input_events : List InEvent
deriving Repr, DecidableEq, Inhabited

/-- `data.input_note_on(key, velocity, channel, delay)`. -/
def input_note_on (d : ProcessData) (key : Int) (velocity : ℚ)
    (channel : Nat) (delay : Nat) : ProcessData :=
  { d with input_events := d.input_events ++ [InEvent.note_on key velocity channel delay] }

/-- `data.input_note_off(key, channel, delay)`. -/
def input_note_off (d : ProcessData) (key : Int) (channel : Nat)
    (delay : Nat) : ProcessData :=
  { d with input_events := d.input_events ++ [InEvent.note_off key channel delay] }

/-- `data.input_param_value(param_id, value, delay)`. -/
def input_param_value (d : ProcessData) (param_id : Nat) (value : ℚ)
    (delay : Nat) : ProcessData :=
  { d with input_events := d.input_events ++ [InEvent.param_value param_id value delay] }

/-- A loaded plugin instance as seen through `context.plugins[i]`:
its process data and the (externally determined) outcome of the next
foreign `process()` call, modelled as an oracle value. -/
structure Plugin where
  data : ProcessData
  process_result : Except Nat Unit

instance : Inhabited Plugin := ⟨{ data := default, process_result := .ok () }⟩

/-- An `AudioInput` binding of a module:
`src_module_index` is the Rust pair `(source track index, source
module index)`, plus source and destination port indices. -/
structure AudioInput where
  src_module_index : Nat × Nat
  src_port_index : Nat
  dst_port_index : Nat
deriving Repr, DecidableEq, Inhabited

/-- A `Module` of a track's processing chain, restricted to the field
the embedded code reads (`audio_inputs`). -/
structure Module where
  audio_inputs : List AudioInput
deriving Repr, DecidableEq, Inhabited

/-- A `Track`, restricted to the fields read by the embedded engine
code (`lanes`, `automation_params`, `modules`; name and mixer fields
are display/summation-only). -/
structure Track where
  lanes : List Lane
  automation_params : List (Nat × Nat)
  modules : List Module

/-- The per-track `ProcessTrackContext` of the `sing_like_coding`
crate, restricted to the fields the embedded functions touch. -/
structure ProcessTrackContext where
  nchannels : Nat
  play_p : Bool
  play_position : URange
  loop_range : URange
  on_keys : List (Option Int)
  event_list_input : List Event
  plugins : List Plugin

/-- Helper: in-place update of a list element; out-of-range indices
leave the list unchanged (the Rust code would panic there). -/
def list_modify {α : Type} (l : List α) (i : Nat) (f : α → α) : List α :=
  match l.get? i with
  | some a => l.set i (f a)
  | none => l

/-- Body of the `for (lane_index, lane)` loop of `compute_midi`
(`track.rs` lines 71–110) for a single lane at a single line, acting
on the state `(on_keys, event_list_input)`.

Note on the `Note` branch: the Rust code reads the held key with
`context.on_keys.get(lane_index).take()`; `Option::take` there acts on
the temporary returned by `Vec::get`, so the vector entry itself is
never cleared.  The embedding mirrors that: on an `off` item the
`on_keys` entry is left as it was. -/
def process_lane_item (t : Track) (range : URange) (line : Nat)
    (st : List (Option Int) × List Event) (lane_index : Nat) (lane : Lane) :
    List (Option Int) × List Event :=
  match lane.items line with
  | none => st
  | some item =>
    let time := line * 0x100 + item.delay
    match item with
    | .note n =>
      if range.containsTick time then
        let delay := time - range.start
        let evs :=
          match st.1.get? lane_index with
          | some (some key) => st.2 ++ [Event.noteOff key delay]
          | _ => st.2
        if !n.off then
          let ks :=
            if st.1.length ≤ lane_index then
              st.1 ++ List.replicate (lane_index + 1 - st.1.length) none
            else st.1
          (ks.set lane_index (some n.key), evs ++ [Event.noteOn n.key n.velocity delay])
        else
          (st.1, evs)
      else st
    | .point p =>
      if range.containsTick time then
        let delay := time - range.start
        let mp := (t.automation_params.get? p.automation_params_index).getD (0, 0)
        (st.1, st.2 ++ [Event.paramValue mp.1 mp.2 ((p.value : ℚ) / 255) delay])
      else st

/-- One line of `compute_midi`: iterate all lanes with their indices. -/
def process_line (t : Track) (range : URange)
    (st : List (Option Int) × List Event) (line : Nat) :
    List (Option Int) × List Event :=
  t.lanes.enum.foldl (fun st p => process_lane_item t range line st p.1 p.2) st

/-- One range of `compute_midi`: the inclusive line span
`range.start / 0x100 ..= range.end / 0x100`. -/
def process_range (t : Track) (st : List (Option Int) × List Event)
    (range : URange) : List (Option Int) × List Event :=
  let line_start := range.start / 0x100
  let line_end := range.stop / 0x100
  (List.range' line_start (line_end + 1 - line_start)).foldl (process_line t range) st

/-- `Track::compute_midi` (`sing_like_coding/src/model/track.rs`
lines 55–113): translate the timeline into the block's event queue. -/
def compute_midi (t : Track) (ctx : ProcessTrackContext) : ProcessTrackContext :=
  if !ctx.play_p then ctx
  else
    let ranges :=
      if ctx.play_position.start < ctx.play_position.stop then
        [ctx.play_position]
      else
        [⟨ctx.play_position.start, ctx.loop_range.stop⟩,
         ⟨ctx.loop_range.start, ctx.play_position.stop⟩]
    let st := ranges.foldl (process_range t) (ctx.on_keys, ctx.event_list_input)
    { ctx with on_keys := st.1, event_list_input := st.2 }

/-- One step of the event loop of `Track::prepare_module_event`
(`track.rs` lines 161–177), acting on the pair
`(plugin process data, on_keys)`. -/
def prepare_event_step (module_index : Nat)
    (st : ProcessData × List (Option Int)) (e : Event) :
    ProcessData × List (Option Int) :=
  match e with
  | .noteOn key velocity delay => (input_note_on st.1 key velocity 0 delay, st.2)
  | .noteOff key delay => (input_note_off st.1 key 0 delay, st.2)
  | .noteAllOff =>
      ((st.2.filterMap id).foldl (fun d k => input_note_off d k 0 0) st.1, [])
  | .paramValue mindex param_id value delay =>
      (if mindex = module_index then input_param_value st.1 param_id value delay else st.1,
       st.2)

/-- `Track::prepare_module_event` (`track.rs` lines 154–180): scan the
block's event queue once for the given module, pushing the matching
events into that module's plugin input-event buffer.  `NoteAllOff`
drains `on_keys`; nothing else of the context changes. -/
def prepare_module_event (ctx : ProcessTrackContext) (module_index : Nat) :
    ProcessTrackContext :=
  let st := ctx.event_list_input.foldl (prepare_event_step module_index)
    (((ctx.plugins.get? module_index).getD default).data, ctx.on_keys)
  { ctx with
    on_keys := st.2,
    plugins := list_modify ctx.plugins module_index (fun p => { p with data := st.1 }) }

/-- The Rust all-ones `u64` (`!0u64`), used to clear one mask bit via
`mask &= !bit`; in the `Nat` model the complement of `bit` within 64
bits is `mask64 ^^^ bit`. -/
def mask64 : Nat := 2 ^ 64 - 1

/-- Body of the `for ch in 0..context.nchannels` loop of
`Track::prepare_module_audio` (`track.rs` lines 135–148) for one
channel: route one channel of one `AudioInput` binding into the
destination module's process data. -/
def route_channel (src_constant_mask : List Nat)
    (src_buffer : List (List (List ℚ))) (ai : AudioInput)
    (d : ProcessData) (ch : Nat) : ProcessData :=
  let constant_mask_bit : Nat := 1 <<< ch
  if (src_constant_mask.getD ai.src_port_index 0) &&& constant_mask_bit = 0 then
    { d with
      constant_mask_in := d.constant_mask_in.set ai.dst_port_index
        ((d.constant_mask_in.getD ai.dst_port_index 0) &&& (mask64 ^^^ constant_mask_bit)),
      buffer_in := list_modify d.buffer_in ai.dst_port_index
        (fun port => port.set ch ((src_buffer.getD ai.src_port_index []).getD ch [])) }
  else
    { d with
      constant_mask_in := d.constant_mask_in.set ai.dst_port_index
        ((d.constant_mask_in.getD ai.dst_port_index 0) ||| constant_mask_bit),
      buffer_in := list_modify d.buffer_in ai.dst_port_index
        (fun port => list_modify port ch
          (fun chbuf => chbuf.set 0 (((src_buffer.getD ai.src_port_index []).getD ch []).getD 0 0))) }

instance : Inhabited ProcessTrackContext :=
  ⟨{ nchannels := 0, play_p := false, play_position := default, loop_range := default,
     on_keys := [], event_list_input := [], plugins := [] }⟩

/-- Source resolution of `prepare_module_audio` (`track.rs` lines
123–131): the source module's process data comes from the track's own
context when the binding's source track index equals `track_index`,
otherwise from the (locked) context of the source track. -/
def resolve_src_data (track_index : Nat) (ctx : ProcessTrackContext)
    (contexts : List ProcessTrackContext) (ai : AudioInput) : ProcessData :=
  if ai.src_module_index.1 = track_index then
    ((ctx.plugins.get? ai.src_module_index.2).getD default).data
  else
    ((((contexts.get? ai.src_module_index.1).getD default).plugins.get?
        ai.src_module_index.2).getD default).data

/-- One iteration of the `for autdio_input in ...audio_inputs` loop of
`prepare_module_audio`: resolve the source process data, then run the
channel loop into the destination module's process data. -/
def route_audio_input (track_index : Nat) (contexts : List ProcessTrackContext)
    (module_index : Nat) (c : ProcessTrackContext) (ai : AudioInput) :
    ProcessTrackContext :=
  let src := resolve_src_data track_index c contexts ai
  let route := fun (p : Plugin) =>
    let d := (List.range c.nchannels).foldl
      (route_channel src.constant_mask_out src.buffer_out ai) p.data
    { p with data := d }
  { c with plugins := list_modify c.plugins module_index route }

/-- `Track::prepare_module_audio` (`track.rs` lines 115–152): for each
`AudioInput` binding of the module, route every channel of the source
port into the destination input port, propagating the constant mask. -/
def prepare_module_audio (t : Track) (track_index : Nat)
    (ctx : ProcessTrackContext) (module_index : Nat)
    (contexts : List ProcessTrackContext) : ProcessTrackContext :=
  (((t.modules.get? module_index).getD default).audio_inputs).foldl
    (route_audio_input track_index contexts module_index) ctx

/-- `Track::process_module` (`track.rs` lines 42–53): prepare events,
prepare audio, then invoke the plugin's foreign `process()` call,
propagating its error with `?`.  The foreign call's effect on buffers
is external; only its success or failure (the `process_result` oracle)
is modelled. -/
def process_module (t : Track) (track_index : Nat)
    (ctx : ProcessTrackContext) (module_index : Nat)
    (contexts : List ProcessTrackContext) : Except Nat ProcessTrackContext :=
  let ctx1 := prepare_module_event ctx module_index
  let ctx2 := prepare_module_audio t track_index ctx1 module_index contexts
  match ((ctx2.plugins.get? module_index).getD default).process_result with
  | .ok _ => .ok ctx2
  | .error e => .error e

end SLC

namespace Sawavi

/-- Rust `Range<i64>`, the play-position window of the `src` crate
(`end` is a Lean keyword, hence `stop`). -/
structure IntRange where
  start : Int
  stop : Int
deriving Repr, DecidableEq, Inhabited

/-- `Range<i64>::contains`. -/
def IntRange.containsTick (r : IntRange) (t : Int) : Bool :=
  r.start ≤ t && t < r.stop

/-- `model::note::Note` of the `src` crate. -/
structure Note where
  line : Nat
  delay : Nat
  channel : Nat
  key : Int
  velocity : ℚ
deriving Repr, DecidableEq, Inhabited

/-- The old crate's `Event` as used by `compute_midi`
(`Event::NoteOn(key, velocity)` / `Event::NoteOff(key)`). -/
inductive Event where
  | noteOn (key : Int) (velocity : ℚ)
  | noteOff (key : Int)
deriving Repr, DecidableEq, Inhabited

/-- A plugin handle of the old crate (`PluginPtr`): the foreign
`Plugin::process(context)` call's outcome is modelled as an oracle;
its audio side effects are external to the embedding. -/
structure Plugin where
  process_result : Except Nat Unit

instance : Inhabited Plugin := ⟨⟨.ok ()⟩⟩

/-- `model::track::Track` of the `src` crate, restricted to the fields
the embedded code reads (`modules` only provides its length to the
render loop). -/
structure Track where
  nlines : Nat
  modules_len : Nat
  notes : List Note
deriving Repr, DecidableEq, Inhabited

/-- The old crate's `ProcessTrackContext`, restricted to the fields
the embedded functions touch. -/
structure ProcessTrackContext where
  nchannels : Nat
  nframes : Nat
  play_p : Bool
  steady_time : Int
  play_position : IntRange
  on_key : Option Int
  event_list_input : List Event
  plugins : List Plugin

/-- `Track::compute_midi` of the `src` crate
(`src/src/model/track.rs` lines 24–38): one held key for the whole
track; every note whose time falls in the window fires. -/
def compute_midi (t : Track) (ctx : ProcessTrackContext) : ProcessTrackContext :=
  t.notes.foldl
    (fun c note =>
      let time : Int := note.line * 0x100 + note.delay
      if c.play_position.containsTick time then
        let evs :=
          match c.on_key with
          | some key => c.event_list_input ++ [Event.noteOff key]
          | none => c.event_list_input
        { c with
          event_list_input := evs ++ [Event.noteOn note.key note.velocity],
          on_key := some note.key }
      else c)
    ctx

/-- The module loop of `Track::process` (`src/src/model/track.rs`
lines 40–48): run `process_module` (which just calls the plugin's
foreign `process`) for each index in order, stopping at the first
error (`?`).  The second component records which module indices were
actually invoked — the observation the error-handling claim is about. -/
def process_loop (plugins : List Plugin) : List Nat → Except Nat Unit × List Nat
  | [] => (.ok (), [])
  | m :: rest =>
    match ((plugins.get? m).getD default).process_result with
    | .ok _ =>
      let r := process_loop plugins rest
      (r.1, m :: r.2)
    | .error e => (.error e, [m])

/-- `Track::process` of the `src` crate: `compute_midi`, then the
module loop over `0..modules.len()`. -/
def process (t : Track) (ctx : ProcessTrackContext) :
    ProcessTrackContext × Except Nat Unit × List Nat :=
  let ctx1 := compute_midi t ctx
  (ctx1, process_loop ctx1.plugins (List.range t.modules_len))

/-- Rust `f64::round`: nearest integer, ties rounded away from zero
(the embedded driver only ever rounds nonnegative tick counts). -/
def rust_round (x : ℚ) : Int :=
  if 0 ≤ x then ⌊x + 1 / 2⌋ else -⌊-x + 1 / 2⌋

/-- `model::song::Song` of the `src` crate, restricted to the fields
the driver reads each block. -/
structure Song where
  bpm : ℚ
  sample_rate : ℚ
  lpb : Nat
  play_p : Bool
  play_position : IntRange
  tracks : List Track

/-- `Song::new`. -/
def Song.new : Song :=
  { bpm := 128, sample_rate := 48000, lpb := 4, play_p := false,
    play_position := ⟨0, 0⟩, tracks := [] }

/-- The driver state (`Singer`), restricted to the fields
`compute_play_position` and `process` read and write.  The per-track
contexts, plugin arrays and the GUI channel are per-track/external
state not consulted by the embedded driver arithmetic. -/
structure Singer where
  steady_time : Int
  song : Song
  line_play : Nat

/-- `Singer::new`: zero `steady_time`, a fresh song, one track added. -/
def Singer.new : Singer :=
  { steady_time := 0,
    song := { Song.new with tracks := [default] },
    line_play := 0 }

/-- `Singer::compute_play_position` (`src/src/singer.rs` lines
84–111).  The `ViewMsg::State` notification to the UI is a side
effect outside the embedding; the `line_play` bookkeeping it is based
on is kept.  The final block is the literal
`// TODO DELET THIS BLOC` reset: whenever the advanced
`play_position.start` exceeds `0x0e * 0x100`, the whole window is
replaced by `0..0`. -/
def compute_play_position (s : Singer) (frames_count : Nat) : Singer :=
  let song := s.song
  let pos1 : IntRange := ⟨song.play_position.stop, song.play_position.stop⟩
  let line := (pos1.start / 0x100).toNat
  if !song.play_p then
    { s with song := { song with play_position := pos1 }, line_play := line }
  else
    let sec_per_frame : ℚ := (frames_count : ℚ) / song.sample_rate
    let sec_per_delay : ℚ := 60 / (song.bpm * (song.lpb : ℚ) * 256)
    let pos2 : IntRange := ⟨pos1.start, pos1.start + rust_round (sec_per_frame / sec_per_delay)⟩
    let pos3 := if pos2.start > 0x0e * 0x100 then (⟨0, 0⟩ : IntRange) else pos2
    { s with song := { song with play_position := pos3 }, line_play := line }

/-- `Singer::process` (`src/src/singer.rs` lines 113–157), the block
entry point, restricted to the modelled driver state: advance the play
position, then account the block's frames in `steady_time`.  The
per-track context refresh, the parallel track fan-out and the output
mix write only the per-track contexts and the output slice — none of
the `Singer` fields modelled here — and the function always returns
`Ok(())` (any per-track render error is discarded by `let _ =`). -/
def Singer.process (s : Singer) (output_len : Nat) (nchannels : Nat) : Singer :=
  let nframes := output_len / nchannels
  let s1 := compute_play_position s nframes
  { s1 with steady_time := s1.steady_time + nframes }

end Sawavi

namespace SLC

/-- Per-module event filter that `prepare_module_event` is compared
against in the delivery theorem: note events pass to every module
(channel fixed at 0), a parameter-value event passes only when its
target module index matches, and nothing else passes.  This definition
follows the specification's words; the theorem below relates it to the
embedded `prepare_module_event`. -/
def event_to_input (module_index : Nat) : Event → Option InEvent
  | .noteOn key velocity delay => some (.note_on key velocity 0 delay)
  | .noteOff key delay => some (.note_off key 0 delay)
  | .noteAllOff => none
  | .paramValue mindex param_id value delay =>
      if mindex = module_index then some (.param_value param_id value delay) else none

/-- Concrete lane holding a single `off` marker at line 0. -/
def lane_off_line0 : Lane :=
  ⟨fun n => if n = 0 then some (.note { key := 0, velocity := 0, off := true, delay := 0 }) else none⟩

/-- Concrete track for the off-marker evaluation. -/
def track_off : Track :=
  { lanes := [lane_off_line0], automation_params := [], modules := [] }

/-- Concrete context holding key 60 on lane 0, playing, window `[0, 0x100)`. -/
def ctx_held60 : ProcessTrackContext :=
  { nchannels := 2, play_p := true, play_position := ⟨0, 0x100⟩, loop_range := ⟨0, 0x0e00⟩,
    on_keys := [some 60], event_list_input := [], plugins := [] }

/-- Concrete lane with an `off` marker at line 0 and a new note (key
62) at line 1. -/
def lane_off_then_note : Lane :=
  ⟨fun n =>
    if n = 0 then some (.note { key := 0, velocity := 0, off := true, delay := 0 })
    else if n = 1 then some (.note { key := 62, velocity := 100, off := false, delay := 0 })
    else none⟩

/-- Concrete track for the double-release evaluation. -/
def track_off_then_note : Track :=
  { lanes := [lane_off_then_note], automation_params := [], modules := [] }

/-- Concrete context holding key 60 on lane 0, playing, window `[0, 0x200)`. -/
def ctx_held60_two_lines : ProcessTrackContext :=
  { nchannels := 2, play_p := true, play_position := ⟨0, 0x200⟩, loop_range := ⟨0, 0x0e00⟩,
    on_keys := [some 60], event_list_input := [], plugins := [] }

/-- Number of note-release events for a given key in a queue. -/
def count_note_off (key : Int) (l : List Event) : Nat :=
  (l.filter fun e =>
    match e with
    | .noteOff k _ => k == key
    | _ => false).length

/-- Concrete lane with one ordinary note (key 60) at line 0. -/
def lane_note60_line0 : Lane :=
  ⟨fun n => if n = 0 then some (.note { key := 60, velocity := 100, off := false, delay := 0 }) else none⟩

/-- Concrete track with that single note. -/
def track_note60 : Track :=
  { lanes := [lane_note60_line0], automation_params := [], modules := [] }

/-- Concrete context whose window is zero-length (`0x100..0x100`)
while the transport is still playing, looping over `[0, 0x200)`. -/
def ctx_zero_len_playing : ProcessTrackContext :=
  { nchannels := 2, play_p := true, play_position := ⟨0x100, 0x100⟩, loop_range := ⟨0, 0x200⟩,
    on_keys := [], event_list_input := [], plugins := [] }

/-- Concrete lane with notes at lines 14 (delay 0x20) and 0, used for
the wrap witness: the first lies in `[0x0e10, 0x0f00)`, the second in
`[0, 0x180)`. -/
def lane_wrap : Lane :=
  ⟨fun n =>
    if n = 14 then some (.note { key := 64, velocity := 100, off := false, delay := 0x20 })
    else if n = 0 then some (.note { key := 65, velocity := 100, off := false, delay := 0 })
    else none⟩

/-- Concrete track for the wrap witness. -/
def track_wrap : Track :=
  { lanes := [lane_wrap], automation_params := [], modules := [] }

/-- Concrete wrapped context: window `0x0e10..0x180` with loop
`[0, 0x0f00)` (start ≥ end, so the block crosses the loop boundary). -/
def ctx_wrap : ProcessTrackContext :=
  { nchannels := 2, play_p := true, play_position := ⟨0x0e10, 0x180⟩, loop_range := ⟨0, 0x0f00⟩,
    on_keys := [], event_list_input := [], plugins := [] }

/-- Concrete source plugin for the routing counterexample: one output
port, one channel, two frames, constant mask bit 0 set, representative
sample 5 (frame 1 still holds 5 as the mask convention requires). -/
def src_plugin_const : Plugin :=
  { data := { buffer_in := [], buffer_out := [[[5, 5]]],
              constant_mask_in := [], constant_mask_out := [1],
              input_events := [] },
    process_result := .ok () }

/-- Concrete destination plugin whose input buffer holds stale data
`[0, 7]` on port 0 channel 0. -/
def dst_plugin_stale : Plugin :=
  { data := { buffer_in := [[[0, 7]]], buffer_out := [],
              constant_mask_in := [0], constant_mask_out := [],
              input_events := [] },
    process_result := .ok () }

/-- Concrete track whose module 1 pulls port 0 of module 0 of the same
track into its own input port 0. -/
def track_routing : Track :=
  { lanes := [], automation_params := [],
    modules := [ { audio_inputs := [] },
                 { audio_inputs := [ { src_module_index := (0, 0)
                                       src_port_index := 0
                                       dst_port_index := 0 } ] } ] }

/-- Concrete context for the routing counterexample: one channel, the
two plugins above. -/
def ctx_routing : ProcessTrackContext :=
  { nchannels := 1, play_p := false, play_position := ⟨0, 0⟩, loop_range := ⟨0, 0⟩,
    on_keys := [], event_list_input := [],
    plugins := [src_plugin_const, dst_plugin_stale] }

end SLC

namespace SLC

/-- Generic fold invariant: when every step of a fold only appends to
the second (list) component and computes its first component
independently of it, the whole fold does too. -/
theorem foldl_snd_append {α β γ : Type} (f : β × List γ → α → β × List γ)
    (hf : ∀ b evs a, f (b, evs) a = ((f (b, []) a).1, evs ++ (f (b, []) a).2)) :
    ∀ (l : List α) (b : β) (evs : List γ),
      l.foldl f (b, evs) = ((l.foldl f (b, [])).1, evs ++ (l.foldl f (b, [])).2) := by
  intro l
  induction l with
  | nil => intro b evs; simp
  | cons a l ih =>
    intro b evs
    have h1 : (a :: l).foldl f (b, evs) = l.foldl f (f (b, evs) a) := by simp
    have h2 : (a :: l).foldl f (b, []) = l.foldl f (f (b, []) a) := by simp
    rw [h1, h2, hf b evs a]
    obtain ⟨b1, l1⟩ : β × List γ := f (b, []) a
    rw [ih b1 (evs ++ l1), ih b1 l1]
    simp

/-- `process_lane_item` appends its emitted events and computes the
new `on_keys` independently of the queue already accumulated. -/
theorem process_lane_item_append (t : Track) (range : URange) (line : Nat)
    (lane_index : Nat) (lane : Lane) (ks : List (Option Int)) (evs : List Event) :
    process_lane_item t range line (ks, evs) lane_index lane
      = ((process_lane_item t range line (ks, []) lane_index lane).1,
         evs ++ (process_lane_item t range line (ks, []) lane_index lane).2) := by
  unfold process_lane_item
  cases h : lane.items line with
  | none => simp
  | some item =>
    cases item with
    | note n =>
      simp only
      split
      · cases hk : (ks, evs).1.get? lane_index with
        | none => simp only [hk]; split <;> simp
        | some o =>
          cases o with
          | none => simp only [hk]; split <;> simp
          | some key => simp only [hk]; split <;> simp
      · simp
    | point p =>
      simp only
      split <;> simp

/-- `process_line` appends its emitted events. -/
theorem process_line_append (t : Track) (range : URange) (line : Nat)
    (ks : List (Option Int)) (evs : List Event) :
    process_line t range (ks, evs) line
      = ((process_line t range (ks, []) line).1,
         evs ++ (process_line t range (ks, []) line).2) := by
  unfold process_line
  exact foldl_snd_append _
    (fun b e a => process_lane_item_append t range line a.1 a.2 b e) _ ks evs

/-- `process_range` appends its emitted events. -/
theorem process_range_append (t : Track) (range : URange)
    (ks : List (Option Int)) (evs : List Event) :
    process_range t (ks, evs) range
      = ((process_range t (ks, []) range).1,
         evs ++ (process_range t (ks, []) range).2) := by
  unfold process_range
  exact foldl_snd_append _
    (fun b e a => process_line_append t range a b e) _ ks evs

/-- Claim C1: when playback is on and the window wraps
(`start >= end`), `compute_midi` processes exactly the two ranges
`[start, loop_end)` then `[loop_start, end)`, in that order, so the
events of the first sub-range precede all events of the second in the
queue; with a non-wrapping window it processes the single range
`[start, end)`. -/
theorem compute_midi_range_decomposition (t : Track) (ctx : ProcessTrackContext)
    (hp : ctx.play_p = true) :
    (ctx.play_position.start < ctx.play_position.stop →
      compute_midi t ctx
        = { ctx with
            on_keys := (process_range t (ctx.on_keys, []) ctx.play_position).1,
            event_list_input := ctx.event_list_input
              ++ (process_range t (ctx.on_keys, []) ctx.play_position).2 }) ∧
    (ctx.play_position.stop ≤ ctx.play_position.start →
      compute_midi t ctx
        = { ctx with
            on_keys := (process_range t
              ((process_range t (ctx.on_keys, [])
                  ⟨ctx.play_position.start, ctx.loop_range.stop⟩).1, [])
              ⟨ctx.loop_range.start, ctx.play_position.stop⟩).1,
            event_list_input := ctx.event_list_input
              ++ (process_range t (ctx.on_keys, [])
                    ⟨ctx.play_position.start, ctx.loop_range.stop⟩).2
              ++ (process_range t
                    ((process_range t (ctx.on_keys, [])
                        ⟨ctx.play_position.start, ctx.loop_range.stop⟩).1, [])
                    ⟨ctx.loop_range.start, ctx.play_position.stop⟩).2 }) := by
  have h1 : (!ctx.play_p) = false := by rw [hp]; rfl
  constructor
  · intro hlt
    unfold compute_midi
    rw [h1, if_neg (by simp), if_pos hlt]
    simp only [List.foldl_cons, List.foldl_nil]
    rw [process_range_append]
  · intro hge
    have h2 : ¬ (ctx.play_position.start < ctx.play_position.stop) := by omega
    unfold compute_midi
    rw [h1, if_neg (by simp), if_neg h2]
    simp only [List.foldl_cons, List.foldl_nil]
    rw [process_range_append t ⟨ctx.play_position.start, ctx.loop_range.stop⟩
      ctx.on_keys ctx.event_list_input]
    rw [process_range_append t ⟨ctx.loop_range.start, ctx.play_position.stop⟩]

/-- Witness for C1 at a concrete wrapped block: window
`0x0e10..0x180`, loop `[0, 0x0f00)`; the note at line 14 (first
sub-range) precedes the note at line 0 (second sub-range). -/
theorem compute_midi_range_decomposition_witness :
    ctx_wrap.play_position.stop ≤ ctx_wrap.play_position.start ∧
    compute_midi track_wrap ctx_wrap
      = { ctx_wrap with
          on_keys := (process_range track_wrap
            ((process_range track_wrap (ctx_wrap.on_keys, [])
                ⟨ctx_wrap.play_position.start, ctx_wrap.loop_range.stop⟩).1, [])
            ⟨ctx_wrap.loop_range.start, ctx_wrap.play_position.stop⟩).1,
          event_list_input := ctx_wrap.event_list_input
            ++ (process_range track_wrap (ctx_wrap.on_keys, [])
                  ⟨ctx_wrap.play_position.start, ctx_wrap.loop_range.stop⟩).2
            ++ (process_range track_wrap
                  ((process_range track_wrap (ctx_wrap.on_keys, [])
                      ⟨ctx_wrap.play_position.start, ctx_wrap.loop_range.stop⟩).1, [])
                  ⟨ctx_wrap.loop_range.start, ctx_wrap.play_position.stop⟩).2 } :=
  ⟨by decide,
   (compute_midi_range_decomposition track_wrap ctx_wrap (by decide)).2 (by decide)⟩

end SLC

namespace SLC

/-- Claim C2 (code evaluation at the failing input): lane 0 holds key
60 and carries an `off` marker at line 0 inside the window.  The
release for key 60 is emitted as claimed, but the held-key entry is
NOT cleared: `on_keys` still records key 60 afterwards, because
`Option::take` in the source acts on the temporary returned by
`Vec::get` rather than on the vector entry. -/
theorem compute_midi_off_marker_leaves_key_held :
    (compute_midi track_off ctx_held60).event_list_input = [Event.noteOff 60 0] ∧
    (compute_midi track_off ctx_held60).on_keys = [some 60] ∧
    (compute_midi track_off ctx_held60).on_keys ≠ [none] := by
  refine ⟨by decide, by decide, by decide⟩

/-- Claim C3 (code evaluation at the failing input): lane 0 holds key
60; an `off` marker at line 0 releases it, but since the held-key
entry survives, the new note at line 1 releases key 60 a second time —
the queue contains two note-releases for the same held key. -/
theorem compute_midi_double_release :
    (compute_midi track_off_then_note ctx_held60_two_lines).event_list_input
      = [Event.noteOff 60 0, Event.noteOff 60 0x100, Event.noteOn 62 100 0x100] ∧
    count_note_off 60 (compute_midi track_off_then_note ctx_held60_two_lines).event_list_input
      = 2 := by
  refine ⟨by decide, by decide⟩

/-- Counterexample to claim C8 as stated: a zero-length window
(`start == end`) with the transport still playing is treated as a
full-loop wrap and DOES translate — the queue gains a note-start and
the held-note table changes. -/
theorem compute_midi_zero_len_playing_translates :
    ctx_zero_len_playing.play_position.start = ctx_zero_len_playing.play_position.stop ∧
    (compute_midi track_note60 ctx_zero_len_playing).event_list_input
      = [Event.noteOn 60 100 0] ∧
    (compute_midi track_note60 ctx_zero_len_playing).event_list_input
      ≠ ctx_zero_len_playing.event_list_input ∧
    (compute_midi track_note60 ctx_zero_len_playing).on_keys
      ≠ ctx_zero_len_playing.on_keys := by
  refine ⟨by decide, by decide, by decide, by decide⟩

/-- Claim C8 (amended): whenever the transport is stopped
(`play_p = false`) — in particular in the zero-length windows the
driver produces while stopped — `compute_midi` performs no
translation: the context (queue and held-note table included) is
returned unchanged. -/
theorem compute_midi_stopped_no_translation (t : Track)
    (ctx : ProcessTrackContext) (hp : ctx.play_p = false) :
    compute_midi t ctx = ctx := by
  unfold compute_midi
  rw [hp]
  rfl

/-- Witness for the amended C8 at a concrete stopped context. -/
theorem compute_midi_stopped_no_translation_witness :
    ({ ctx_held60 with play_p := false } : ProcessTrackContext).play_p = false ∧
    compute_midi track_note60 { ctx_held60 with play_p := false }
      = { ctx_held60 with play_p := false } :=
  ⟨rfl, compute_midi_stopped_no_translation track_note60 _ rfl⟩

end SLC

namespace SLC

/-- Reading back a modified entry applies the modification. -/
theorem list_modify_get?_self {α : Type} (l : List α) (i : Nat) (f : α → α) :
    (list_modify l i f).get? i = (l.get? i).map f := by
  unfold list_modify
  cases h : l.get? i with
  | none => rw [h]; rfl
  | some a =>
    have h2 : l[i]? = some a := by rw [← List.get?_eq_getElem?]; exact h
    rw [List.get?_set]; simp [h, h2]

/-- Entries other than the modified one are unchanged. -/
theorem list_modify_get?_ne {α : Type} (l : List α) (i j : Nat) (f : α → α)
    (h : i ≠ j) : (list_modify l i f).get? j = l.get? j := by
  unfold list_modify
  cases hl : l.get? i with
  | none => rfl
  | some a => rw [List.get?_set]; simp [h]

/-- Every step of the event-delivery scan, except `NoteAllOff`,
appends exactly the `event_to_input` translation (if any) to the
plugin's input-event buffer and leaves `on_keys` unchanged. -/
theorem prepare_event_step_eq (module_index : Nat) (d : ProcessData)
    (ks : List (Option Int)) (e : Event) (he : e ≠ Event.noteAllOff) :
    prepare_event_step module_index (d, ks) e
      = ({ d with input_events :=
            d.input_events ++ (event_to_input module_index e).toList }, ks) := by
  cases e with
  | noteOn key velocity delay => rfl
  | noteOff key delay => rfl
  | noteAllOff => exact absurd rfl he
  | paramValue mindex param_id value delay =>
    by_cases hm : mindex = module_index
    · simp [prepare_event_step, event_to_input, input_param_value, hm]
    · simp [prepare_event_step, event_to_input, hm]

/-- The event-delivery scan over a queue without `NoteAllOff` appends
exactly the filtered translations. -/
theorem prepare_fold_no_alloff (module_index : Nat) :
    ∀ (evs : List Event), Event.noteAllOff ∉ evs →
      ∀ (d : ProcessData) (ks : List (Option Int)),
        evs.foldl (prepare_event_step module_index) (d, ks)
          = ({ d with input_events :=
                d.input_events ++ evs.filterMap (event_to_input module_index) }, ks) := by
  intro evs
  induction evs with
  | nil => intro _ d ks; simp
  | cons e rest ih =>
    intro hmem d ks
    have he : e ≠ Event.noteAllOff := fun h => hmem (h ▸ List.mem_cons_self e rest)
    have hrest : Event.noteAllOff ∉ rest := fun h => hmem (List.mem_cons_of_mem e h)
    rw [List.foldl_cons, prepare_event_step_eq module_index d ks e he,
      ih hrest]
    cases hti : event_to_input module_index e with
    | none => simp [List.filterMap_cons, hti]
    | some x => simp [List.filterMap_cons, hti]

/-- Claim C7: `prepare_module_event` leaves the block's event queue
unchanged (every module of the track scans the same queue), and — for
a queue without the transport-reset `NoteAllOff` event — delivers to
module `m` exactly the note-start and note-release events (to every
module, channel 0) plus precisely those parameter-value events whose
target module index equals `m`, leaving the held-note table
unchanged. -/
theorem prepare_module_event_delivery (ctx : ProcessTrackContext) (module_index : Nat) :
    (prepare_module_event ctx module_index).event_list_input = ctx.event_list_input ∧
    (Event.noteAllOff ∉ ctx.event_list_input →
      (prepare_module_event ctx module_index).on_keys = ctx.on_keys ∧
      ((prepare_module_event ctx module_index).plugins.get? module_index).map
          (fun p => p.data.input_events)
        = (ctx.plugins.get? module_index).map
            (fun p => p.data.input_events
              ++ ctx.event_list_input.filterMap (event_to_input module_index))) := by
  constructor
  · rfl
  · intro hno
    constructor
    · show (ctx.event_list_input.foldl (prepare_event_step module_index)
        (((ctx.plugins.get? module_index).getD default).data, ctx.on_keys)).2 = ctx.on_keys
      rw [prepare_fold_no_alloff module_index ctx.event_list_input hno]
    · show ((list_modify ctx.plugins module_index _).get? module_index).map _ = _
      rw [list_modify_get?_self]
      cases hp : ctx.plugins.get? module_index with
      | none => rfl
      | some p =>
        simp only [Option.map_map, Option.map_some]
        rw [prepare_fold_no_alloff module_index ctx.event_list_input hno]
        simp [hp]

/-- Witness for C7 at a concrete queue holding a note-start, a
note-release and two parameter events addressed to modules 0 and 1,
prepared for module 0. -/
theorem prepare_module_event_delivery_witness :
    (prepare_module_event
      { nchannels := 2, play_p := true, play_position := ⟨0, 0x100⟩,
        loop_range := ⟨0, 0x0e00⟩, on_keys := [some 60],
        event_list_input := [Event.noteOn 60 100 3, Event.noteOff 55 4,
          Event.paramValue 0 9 1 5, Event.paramValue 1 9 1 6],
        plugins := [⟨{ buffer_in := [], buffer_out := [], constant_mask_in := [],
                       constant_mask_out := [], input_events := [] }, .ok ()⟩] } 0).event_list_input
      = [Event.noteOn 60 100 3, Event.noteOff 55 4,
         Event.paramValue 0 9 1 5, Event.paramValue 1 9 1 6] ∧
    ((prepare_module_event
      { nchannels := 2, play_p := true, play_position := ⟨0, 0x100⟩,
        loop_range := ⟨0, 0x0e00⟩, on_keys := [some 60],
        event_list_input := [Event.noteOn 60 100 3, Event.noteOff 55 4,
          Event.paramValue 0 9 1 5, Event.paramValue 1 9 1 6],
        plugins := [⟨{ buffer_in := [], buffer_out := [], constant_mask_in := [],
                       constant_mask_out := [], input_events := [] }, .ok ()⟩] } 0).plugins.get?
        0).map (fun p => p.data.input_events)
      = some [InEvent.note_on 60 100 0 3, InEvent.note_off 55 0 4,
              InEvent.param_value 9 1 5] := by
  refine ⟨(prepare_module_event_delivery _ 0).1, ?_⟩
  rw [((prepare_module_event_delivery _ 0).2 (by decide)).2]
  decide

end SLC

namespace SLC

/-- `prepare_module_event` only rewrites a plugin's `data`; every
plugin's foreign-call outcome is untouched. -/
theorem prepare_module_event_preserves_result (ctx : ProcessTrackContext)
    (module_index j : Nat) :
    ((prepare_module_event ctx module_index).plugins.get? j).map (fun p => p.process_result)
      = (ctx.plugins.get? j).map (fun p => p.process_result) := by
  show ((list_modify ctx.plugins module_index _).get? j).map _ = _
  by_cases h : module_index = j
  · subst h
    rw [list_modify_get?_self]
    cases ctx.plugins.get? module_index <;> rfl
  · rw [list_modify_get?_ne _ _ _ _ h]

/-- One audio-routing iteration only rewrites a plugin's `data`;
foreign-call outcomes are untouched. -/
theorem route_audio_input_preserves_result (track_index : Nat)
    (contexts : List ProcessTrackContext) (module_index : Nat)
    (c : ProcessTrackContext) (ai : AudioInput) (j : Nat) :
    ((route_audio_input track_index contexts module_index c ai).plugins.get? j).map
        (fun p => p.process_result)
      = (c.plugins.get? j).map (fun p => p.process_result) := by
  show ((list_modify c.plugins module_index _).get? j).map _ = _
  by_cases h : module_index = j
  · subst h
    rw [list_modify_get?_self]
    cases c.plugins.get? module_index <;> rfl
  · rw [list_modify_get?_ne _ _ _ _ h]

/-- `prepare_module_audio` preserves every plugin's foreign-call
outcome. -/
theorem prepare_module_audio_preserves_result (t : Track) (track_index : Nat)
    (ctx : ProcessTrackContext) (module_index : Nat)
    (contexts : List ProcessTrackContext) (j : Nat) :
    ((prepare_module_audio t track_index ctx module_index contexts).plugins.get? j).map
        (fun p => p.process_result)
      = (ctx.plugins.get? j).map (fun p => p.process_result) := by
  unfold prepare_module_audio
  generalize ((t.modules.get? module_index).getD default).audio_inputs = l
  induction l generalizing ctx with
  | nil => rfl
  | cons ai rest ih =>
    rw [List.foldl_cons, ih, route_audio_input_preserves_result]

end SLC

namespace Sawavi

/-- The old crate's `compute_midi` only touches the event queue and
the held key; the plugin handles are unchanged. -/
theorem compute_midi_preserves_plugins (t : Track) (ctx : ProcessTrackContext) :
    (compute_midi t ctx).plugins = ctx.plugins := by
  unfold compute_midi
  induction t.notes generalizing ctx with
  | nil => rfl
  | cons note rest ih =>
    rw [List.foldl_cons, ih]
    dsimp only
    repeat' split
    all_goals rfl

/-- The module loop stops at the first failing plugin: every module of
the all-ok prefix is invoked, the failing one is invoked, and the loop
returns its error without touching anything after it. -/
theorem process_loop_first_error (plugins : List Plugin) :
    ∀ (l1 : List Nat) (k : Nat) (l2 : List Nat) (e : Nat),
      (∀ m ∈ l1, ((plugins.get? m).getD default).process_result = .ok ()) →
      ((plugins.get? k).getD default).process_result = .error e →
      process_loop plugins (l1 ++ k :: l2) = (.error e, l1 ++ [k]) := by
  intro l1
  induction l1 with
  | nil =>
    intro k l2 e _ hk
    simp only [List.nil_append, process_loop, hk]
  | cons m l1 ih =>
    intro k l2 e hok hk
    have hm := hok m (List.mem_cons_self m l1)
    have hrest : ∀ x ∈ l1, ((plugins.get? x).getD default).process_result = .ok () :=
      fun x hx => hok x (List.mem_cons_of_mem m hx)
    simp only [List.cons_append, process_loop, hm, List.append_eq]
    rw [ih k l2 e hrest hk]

end Sawavi

/-- Claim C9: a plugin process error is propagated, never swallowed —
in the current crate, `process_module` returns exactly the failing
plugin's error; in the `src` crate's per-track render loop, the block
render of the track stops at the first failing module: the loop
returns its error and the invocation trace is exactly the modules
`0..=k`, so no later module of the track is processed in that block. -/
theorem process_module_error_propagated :
    (∀ (t : SLC.Track) (track_index : Nat) (ctx : SLC.ProcessTrackContext)
        (module_index : Nat) (contexts : List SLC.ProcessTrackContext)
        (p : SLC.Plugin) (e : Nat),
        ctx.plugins.get? module_index = some p →
        p.process_result = .error e →
        SLC.process_module t track_index ctx module_index contexts = .error e) ∧
    (∀ (t : Sawavi.Track) (ctx : Sawavi.ProcessTrackContext) (k e : Nat),
        k < t.modules_len →
        ((ctx.plugins.get? k).getD default).process_result = .error e →
        (∀ j, j < k → ((ctx.plugins.get? j).getD default).process_result = .ok ()) →
        (Sawavi.process t ctx).2 = (.error e, List.range (k + 1))) := by
  constructor
  · intro t track_index ctx module_index contexts p e hp he
    have h1 := SLC.prepare_module_audio_preserves_result t track_index
      (SLC.prepare_module_event ctx module_index) module_index contexts module_index
    rw [SLC.prepare_module_event_preserves_result ctx module_index module_index] at h1
    rw [hp] at h1
    cases h2 : (SLC.prepare_module_audio t track_index
        (SLC.prepare_module_event ctx module_index) module_index
        contexts).plugins.get? module_index with
    | none => rw [h2] at h1; exact Option.noConfusion h1
    | some q =>
      rw [h2] at h1
      have h3 : q.process_result = p.process_result := by simpa using h1
      simp only [SLC.process_module, h2, Option.getD_some, h3, he]
  · intro t ctx k e hk hke hok
    unfold Sawavi.process
    simp only [Sawavi.compute_midi_preserves_plugins]
    obtain ⟨m, hm⟩ : ∃ m, t.modules_len = k + 1 + m := ⟨t.modules_len - (k + 1), by omega⟩
    have hdecomp : List.range (k + 1) ++ (List.range m).map ((k + 1) + ·)
        = List.range k ++ k :: ((List.range m).map ((k + 1) + ·)) := by
      rw [List.range_succ]
      simp
    rw [hm, List.range_add, hdecomp,
      Sawavi.process_loop_first_error ctx.plugins (List.range k) k _ e
        (fun x hx => hok x (List.mem_range.mp hx)) hke]
    rw [← List.range_succ]

/-- Witness for C9: a current-crate module whose plugin fails with
error 7 makes `process_module` return error 7; an old-crate track with
two modules whose second plugin fails with error 5 stops its render
loop right there with trace `[0, 1]`. -/
theorem process_module_error_propagated_witness :
    SLC.process_module { lanes := [], automation_params := [], modules := [] } 0
        { nchannels := 1, play_p := false, play_position := ⟨0, 0⟩, loop_range := ⟨0, 0⟩,
          on_keys := [], event_list_input := [],
          plugins := [⟨default, .error 7⟩] } 0 []
      = .error 7 ∧
    (Sawavi.process { nlines := 16, modules_len := 3, notes := [] }
        { nchannels := 2, nframes := 4, play_p := false, steady_time := 0,
          play_position := ⟨0, 0⟩, on_key := none, event_list_input := [],
          plugins := [⟨.ok ()⟩, ⟨.error 5⟩, ⟨.ok ()⟩] }).2
      = (.error 5, List.range 2) :=
  ⟨process_module_error_propagated.1 _ 0 _ 0 [] ⟨default, .error 7⟩ 7 rfl rfl,
   process_module_error_propagated.2 _ _ 1 5 (by decide) rfl
     (fun j hj => by interval_cases j; rfl)⟩

namespace Sawavi

/-- `compute_play_position` never touches the frame counter. -/
theorem compute_play_position_steady (s : Singer) (n : Nat) :
    (compute_play_position s n).steady_time = s.steady_time := by
  unfold compute_play_position
  dsimp only
  split <;> rfl

/-- One block accounts exactly `output_len / nchannels` frames. -/
theorem process_steady_eq (s : Singer) (output_len nchannels : Nat) :
    (s.process output_len nchannels).steady_time
      = s.steady_time + ((output_len / nchannels : Nat) : Int) := by
  unfold Singer.process
  dsimp only
  rw [compute_play_position_steady]

/-- Folding blocks adds up their frame counts. -/
theorem steady_time_fold_eq :
    ∀ (blocks : List (Nat × Nat)) (s : Singer),
      (blocks.foldl (fun s b => s.process b.1 b.2) s).steady_time
        = s.steady_time + (((blocks.map (fun b => b.1 / b.2)).sum : Nat) : Int) := by
  intro blocks
  induction blocks with
  | nil => intro s; simp
  | cons b bs ih =>
    intro s
    rw [List.foldl_cons, ih, process_steady_eq, List.map_cons, List.sum_cons]
    push_cast
    ring

end Sawavi

/-- Claim C10: each successful `Singer::process` call on an output
slice of length `L` with `C` channels advances `steady_time` by
exactly `L / C` (the block's frame count); it never decreases; and
from a fresh `Singer` (constructed with `steady_time = 0`) it always
equals the total number of frames processed so far. -/
theorem steady_time_counts_frames :
    (∀ (s : Sawavi.Singer) (output_len nchannels : Nat),
      (s.process output_len nchannels).steady_time
        = s.steady_time + ((output_len / nchannels : Nat) : Int)) ∧
    (∀ (s : Sawavi.Singer) (output_len nchannels : Nat),
      s.steady_time ≤ (s.process output_len nchannels).steady_time) ∧
    (∀ blocks : List (Nat × Nat),
      (blocks.foldl (fun s b => s.process b.1 b.2) Sawavi.Singer.new).steady_time
        = (((blocks.map (fun b => b.1 / b.2)).sum : Nat) : Int)) :=
  ⟨fun s L C => Sawavi.process_steady_eq s L C,
   fun s L C => by
    rw [Sawavi.process_steady_eq]
    have : (0 : Int) ≤ ((L / C : Nat) : Int) := Int.natCast_nonneg _
    omega,
   fun blocks => by
    rw [Sawavi.steady_time_fold_eq]
    show (Sawavi.Singer.new.steady_time + _ : Int) = _
    rw [show Sawavi.Singer.new.steady_time = 0 from rfl]
    ring⟩

/-- Claim C4 (code evaluation at the failing input): a playing block
whose advanced window ends past the loop end `0x0e00` (previous
window `0x0d00..0x0e00`, 1024 frames at 48 kHz, bpm 128, lpb 4, so 47
ticks are added) is NOT wrapped: the driver leaves `0x0e00..0x0e2f`
as is — the end is not `loop_start + (end - loop_end) = 0x2f`, and no
`start >= end` window is produced.  The only loop-related code is the
`// TODO DELET THIS BLOC` reset, which does not fire here because it
tests `start`, not `end`. -/
theorem compute_play_position_no_wrap_past_loop_end :
    (Sawavi.compute_play_position
        { steady_time := 0, line_play := 0,
          song := { bpm := 128, sample_rate := 48000, lpb := 4, play_p := true,
                    play_position := ⟨0x0d00, 0x0e00⟩, tracks := [] } }
        1024).song.play_position = ⟨0x0e00, 0x0e2f⟩ ∧
    ((0x0e2f : Int) ≠ 0 + (0x0e2f - 0x0e00)) ∧
    ¬ ((0x0e00 : Int) ≥ 0x0e2f) := by
  refine ⟨?_, by norm_num, by norm_num⟩
  simp only [Sawavi.compute_play_position, Sawavi.rust_round]
  norm_num [Sawavi.IntRange.mk.injEq]

/-- Claim C5 (code evaluation at the failing input): when the advanced
`window.start` exceeds `0x0e00` (previous window `0x0d80..0x0e01`),
the `// TODO DELET THIS BLOC` reset replaces the whole window by
`0..0` — `window.start` is not the previous `window.end` and
`window.end` is not `window.start + round(frames / sample_rate / (60 /
(bpm * lpb * 256)))`, which would give `0x0e01..0x0e30`. -/
theorem compute_play_position_reset_overrides_advance :
    (Sawavi.compute_play_position
        { steady_time := 0, line_play := 0,
          song := { bpm := 128, sample_rate := 48000, lpb := 4, play_p := true,
                    play_position := ⟨0x0d80, 0x0e01⟩, tracks := [] } }
        1024).song.play_position = ⟨0, 0⟩ ∧
    ((⟨0, 0⟩ : Sawavi.IntRange) ≠ ⟨0x0e01, 0x0e30⟩) := by
  refine ⟨?_, by decide⟩
  simp only [Sawavi.compute_play_position, Sawavi.rust_round]
  norm_num

namespace SLC

/-- `List.getD` through `get?`. -/
theorem list_getD_eq {α : Type} (l : List α) (n : Nat) (d : α) :
    l.getD n d = (l.get? n).getD d := by
  rw [List.get?_eq_getElem?, List.getD_eq_getElem?_getD]

/-- A single-bit mask test written as the source writes it:
`m & (1 << ch) == 0` holds exactly when bit `ch` of `m` is clear. -/
theorem and_shift_eq_zero_iff (m ch : Nat) :
    (m &&& (1 <<< ch) = 0) ↔ m.testBit ch = false := by
  rw [Nat.one_shiftLeft, Nat.and_two_pow]
  cases h : m.testBit ch
  · simp
  · simp [Nat.pow_eq_zero]

/-- Clearing bit `ch` by `m &&& (mask64 ^^^ (1 <<< ch))` clears exactly
bit `ch` (for indices below the 64-bit width). -/
theorem mask_clear_testBit (m ch i : Nat) (hi : i < 64) :
    (m &&& (mask64 ^^^ (1 <<< ch))).testBit i
      = (m.testBit i && !(i == ch)) := by
  rw [Nat.testBit_land, Nat.testBit_xor, Nat.one_shiftLeft, mask64,
    Nat.testBit_two_pow_sub_one]
  by_cases h : i = ch
  · subst h
    rw [Nat.testBit_two_pow_self]
    simp [hi]
  · rw [Nat.testBit_two_pow_of_ne (fun hc => h hc.symm)]
    simp [hi, h]

/-- Setting bit `ch` by `m ||| (1 <<< ch)` sets exactly bit `ch`. -/
theorem mask_set_testBit (m ch i : Nat) :
    (m ||| (1 <<< ch)).testBit i = (m.testBit i || (i == ch)) := by
  rw [Nat.testBit_lor, Nat.one_shiftLeft]
  by_cases h : i = ch
  · subst h
    rw [Nat.testBit_two_pow_self]
    simp
  · rw [Nat.testBit_two_pow_of_ne (fun hc => h hc.symm)]
    simp [h]

end SLC

namespace SLC

/-- In-range lookup is defined. -/
theorem get?_of_lt {α : Type} (l : List α) (i : Nat) (h : i < l.length) :
    ∃ a, l.get? i = some a := by
  cases hh : l.get? i with
  | none => rw [List.get?_eq_none] at hh; omega
  | some a => exact ⟨a, rfl⟩

/-- Reading back the written entry of `List.set`. -/
theorem getD_set_self {α : Type} (l : List α) (i : Nat) (v d : α) :
    (l.set i v).getD i d = if i < l.length then v else d := by
  rw [list_getD_eq, List.get?_set_eq]
  by_cases hl : i < l.length
  · obtain ⟨a, ha⟩ := get?_of_lt l i hl
    rw [ha]
    simp [hl]
  · rw [List.get?_eq_none.mpr (by omega)]
    simp [hl]

/-- Reading another entry of `List.set`. -/
theorem getD_set_ne {α : Type} (l : List α) (i j : Nat) (v d : α) (h : i ≠ j) :
    (l.set i v).getD j d = l.getD j d := by
  rw [list_getD_eq, list_getD_eq, List.get?_set_ne _ _ h]

/-- Reading back the modified entry of `list_modify`. -/
theorem list_modify_getD_self {α : Type} (l : List α) (i : Nat) (f : α → α) (d : α) :
    (list_modify l i f).getD i d = ((l.get? i).map f).getD d := by
  rw [list_getD_eq, list_modify_get?_self]

/-- Reading another entry of `list_modify`. -/
theorem list_modify_getD_ne {α : Type} (l : List α) (i j : Nat) (f : α → α) (d : α)
    (h : i ≠ j) : (list_modify l i f).getD j d = l.getD j d := by
  rw [list_getD_eq, list_modify_get?_ne _ _ _ _ h, list_getD_eq]

/-- `list_modify` preserves length. -/
theorem list_modify_length {α : Type} (l : List α) (i : Nat) (f : α → α) :
    (list_modify l i f).length = l.length := by
  unfold list_modify
  cases l.get? i <;> simp

/-- One routing iteration preserves the mask-array length. -/
theorem route_channel_mask_len (sm : List Nat) (sb : List (List (List ℚ)))
    (ai : AudioInput) (d : ProcessData) (ch : Nat) :
    (route_channel sm sb ai d ch).constant_mask_in.length
      = d.constant_mask_in.length := by
  unfold route_channel
  dsimp only
  split <;> simp

/-- One routing iteration preserves the buffer-port count. -/
theorem route_channel_buffer_len (sm : List Nat) (sb : List (List (List ℚ)))
    (ai : AudioInput) (d : ProcessData) (ch : Nat) :
    (route_channel sm sb ai d ch).buffer_in.length = d.buffer_in.length := by
  unfold route_channel
  dsimp only
  split <;> simp [list_modify_length]

/-- One routing iteration preserves every port's channel count. -/
theorem route_channel_port_len (sm : List Nat) (sb : List (List (List ℚ)))
    (ai : AudioInput) (d : ProcessData) (ch p : Nat) :
    ((route_channel sm sb ai d ch).buffer_in.getD p []).length
      = (d.buffer_in.getD p []).length := by
  unfold route_channel
  dsimp only
  split <;>
  · by_cases hp : ai.dst_port_index = p
    · subst hp
      rw [list_modify_getD_self]
      cases h : d.buffer_in.get? ai.dst_port_index with
      | none => rw [list_getD_eq d.buffer_in ai.dst_port_index [], h]; rfl
      | some port =>
        rw [list_getD_eq d.buffer_in ai.dst_port_index [], h]
        simp [list_modify_length]
    · rw [list_modify_getD_ne _ _ _ _ _ hp]

end SLC

namespace SLC

/-- At its own channel, one routing iteration copies the source's
constant-mask bit into the destination port's mask. -/
theorem route_channel_mask_self (sm : List Nat) (sb : List (List (List ℚ)))
    (ai : AudioInput) (d : ProcessData) (ch : Nat) (h64 : ch < 64)
    (hdp : ai.dst_port_index < d.constant_mask_in.length) :
    ((route_channel sm sb ai d ch).constant_mask_in.getD ai.dst_port_index 0).testBit ch
      = (sm.getD ai.src_port_index 0).testBit ch := by
  unfold route_channel
  dsimp only
  by_cases hc : (sm.getD ai.src_port_index 0) &&& (1 <<< ch) = 0
  · rw [if_pos hc]
    dsimp only
    rw [getD_set_self, if_pos hdp, mask_clear_testBit _ _ _ h64,
      (and_shift_eq_zero_iff _ ch).mp hc]
    simp
  · rw [if_neg hc]
    dsimp only
    rw [getD_set_self, if_pos hdp, mask_set_testBit]
    have hbit : (sm.getD ai.src_port_index 0).testBit ch = true := by
      rcases Bool.eq_false_or_eq_true ((sm.getD ai.src_port_index 0).testBit ch) with h | h
      · exact h
      · exact absurd ((and_shift_eq_zero_iff _ ch).mpr h) hc
    simp only [beq_self_eq_true, Bool.or_true]
    exact hbit.symm

/-- At any other channel (below the 64-bit width), one routing
iteration leaves the destination mask bit unchanged. -/
theorem route_channel_mask_other (sm : List Nat) (sb : List (List (List ℚ)))
    (ai : AudioInput) (d : ProcessData) (ch i p : Nat) (h64 : i < 64) (hne : i ≠ ch) :
    ((route_channel sm sb ai d ch).constant_mask_in.getD p 0).testBit i
      = ((d.constant_mask_in.getD p 0)).testBit i := by
  unfold route_channel
  dsimp only
  have hbeq : (i == ch) = false := by simp [hne]
  split <;>
  · dsimp only
    by_cases hp : ai.dst_port_index = p
    · subst hp
      by_cases hl : ai.dst_port_index < d.constant_mask_in.length
      · rw [getD_set_self, if_pos hl]
        first
        | rw [mask_clear_testBit _ _ _ h64, hbeq]; simp
        | rw [mask_set_testBit, hbeq]; simp
      · rw [getD_set_self, if_neg hl,
          list_getD_eq d.constant_mask_in ai.dst_port_index 0,
          List.get?_eq_none.mpr (by omega)]
        rfl
    · rw [getD_set_ne _ _ _ _ _ hp]

/-- At its own channel, one routing iteration writes the destination
channel buffer: the full source channel when the source mask bit is
clear, only frame 0 (the representative sample) when it is set. -/
theorem route_channel_buffer_self (sm : List Nat) (sb : List (List (List ℚ)))
    (ai : AudioInput) (d : ProcessData) (ch : Nat)
    (hdp : ai.dst_port_index < d.buffer_in.length)
    (hch : ch < (d.buffer_in.getD ai.dst_port_index []).length) :
    ((route_channel sm sb ai d ch).buffer_in.getD ai.dst_port_index []).getD ch []
      = if (sm.getD ai.src_port_index 0).testBit ch
        then ((d.buffer_in.getD ai.dst_port_index []).getD ch []).set 0
               (((sb.getD ai.src_port_index []).getD ch []).getD 0 0)
        else (sb.getD ai.src_port_index []).getD ch [] := by
  obtain ⟨port, hport⟩ := get?_of_lt d.buffer_in ai.dst_port_index hdp
  have hportD : d.buffer_in.getD ai.dst_port_index [] = port := by
    rw [list_getD_eq d.buffer_in ai.dst_port_index [], hport]
    rfl
  have hchp : ch < port.length := by rw [hportD] at hch; exact hch
  obtain ⟨chbuf, hchbuf⟩ := get?_of_lt port ch hchp
  have hchbufD : port.getD ch [] = chbuf := by
    rw [list_getD_eq port ch [], hchbuf]
    rfl
  unfold route_channel
  dsimp only
  by_cases hc : (sm.getD ai.src_port_index 0) &&& (1 <<< ch) = 0
  · rw [if_pos hc]
    dsimp only
    rw [list_modify_getD_self, hport]
    rw [if_neg (by rw [(and_shift_eq_zero_iff _ ch).mp hc]; simp)]
    show (port.set ch _).getD ch [] = _
    rw [getD_set_self, if_pos hchp]
  · rw [if_neg hc]
    dsimp only
    rw [list_modify_getD_self, hport]
    have hbit : (sm.getD ai.src_port_index 0).testBit ch = true := by
      rcases Bool.eq_false_or_eq_true ((sm.getD ai.src_port_index 0).testBit ch) with h | h
      · exact h
      · exact absurd ((and_shift_eq_zero_iff _ ch).mpr h) hc
    rw [if_pos hbit]
    show (list_modify port ch _).getD ch [] = _
    rw [list_modify_getD_self, hchbuf, hportD, hchbufD]
    rfl

/-- At any other channel, one routing iteration leaves the channel
buffer unchanged. -/
theorem route_channel_buffer_other (sm : List Nat) (sb : List (List (List ℚ)))
    (ai : AudioInput) (d : ProcessData) (ch i p : Nat) (hne : i ≠ ch) :
    ((route_channel sm sb ai d ch).buffer_in.getD p []).getD i []
      = ((d.buffer_in.getD p []).getD i []) := by
  unfold route_channel
  dsimp only
  split <;>
  · dsimp only
    by_cases hp : ai.dst_port_index = p
    · subst hp
      rw [list_modify_getD_self]
      cases hport : d.buffer_in.get? ai.dst_port_index with
      | none => rw [list_getD_eq d.buffer_in ai.dst_port_index [], hport]; rfl
      | some port =>
        rw [list_getD_eq d.buffer_in ai.dst_port_index [], hport]
        simp only [Option.map_some', Option.getD_some]
        first
        | rw [getD_set_ne _ _ _ _ _ (fun hcc => hne hcc.symm)]
        | rw [list_modify_getD_ne _ _ _ _ _ (fun hcc => hne hcc.symm)]
    · rw [list_modify_getD_ne _ _ _ _ _ hp]

end SLC

namespace SLC

/-- The channel loop preserves all the array lengths it touches. -/
theorem route_fold_lengths (sm : List Nat) (sb : List (List (List ℚ))) (ai : AudioInput) :
    ∀ (l : List Nat) (d : ProcessData),
      ((l.foldl (route_channel sm sb ai) d).constant_mask_in.length
        = d.constant_mask_in.length)
      ∧ ((l.foldl (route_channel sm sb ai) d).buffer_in.length = d.buffer_in.length)
      ∧ ∀ p, ((l.foldl (route_channel sm sb ai) d).buffer_in.getD p []).length
          = (d.buffer_in.getD p []).length := by
  intro l
  induction l with
  | nil => intro d; exact ⟨rfl, rfl, fun p => rfl⟩
  | cons x xs ih =>
    intro d
    obtain ⟨h1, h2, h3⟩ := ih (route_channel sm sb ai d x)
    refine ⟨?_, ?_, ?_⟩
    · rw [List.foldl_cons, h1, route_channel_mask_len]
    · rw [List.foldl_cons, h2, route_channel_buffer_len]
    · intro p
      rw [List.foldl_cons, h3 p, route_channel_port_len]

/-- Channel iterations other than `ch` never touch channel `ch`'s mask
bit or buffer at the destination port. -/
theorem route_fold_preserved (sm : List Nat) (sb : List (List (List ℚ)))
    (ai : AudioInput) (ch : Nat) (h64 : ch < 64) :
    ∀ (l : List Nat), ch ∉ l → ∀ (d : ProcessData),
      (((l.foldl (route_channel sm sb ai) d).constant_mask_in.getD ai.dst_port_index 0).testBit ch
        = (d.constant_mask_in.getD ai.dst_port_index 0).testBit ch)
      ∧ (((l.foldl (route_channel sm sb ai) d).buffer_in.getD ai.dst_port_index []).getD ch []
        = (d.buffer_in.getD ai.dst_port_index []).getD ch []) := by
  intro l
  induction l with
  | nil => intro _ d; exact ⟨rfl, rfl⟩
  | cons x xs ih =>
    intro hnm d
    have hxne : ch ≠ x := fun h => hnm (h ▸ List.mem_cons_self x xs)
    have hxs : ch ∉ xs := fun h => hnm (List.mem_cons_of_mem x h)
    obtain ⟨h1, h2⟩ := ih hxs (route_channel sm sb ai d x)
    refine ⟨?_, ?_⟩
    · rw [List.foldl_cons, h1, route_channel_mask_other _ _ _ _ _ _ _ h64 hxne]
    · rw [List.foldl_cons, h2, route_channel_buffer_other _ _ _ _ _ _ _ hxne]

/-- Running the channel loop over a duplicate-free channel list
containing `ch` leaves, at `ch`, exactly the per-channel routing
result: the destination's mask bit equals the source's, and the
channel buffer is either the full source channel (mask clear) or the
original buffer with only frame 0 overwritten by the representative
sample (mask set). -/
theorem route_fold_spec (sm : List Nat) (sb : List (List (List ℚ)))
    (ai : AudioInput) (ch : Nat) (h64 : ch < 64) :
    ∀ (l : List Nat), l.Nodup → ch ∈ l → ∀ (d : ProcessData),
      ai.dst_port_index < d.constant_mask_in.length →
      ai.dst_port_index < d.buffer_in.length →
      ch < (d.buffer_in.getD ai.dst_port_index []).length →
      (((l.foldl (route_channel sm sb ai) d).constant_mask_in.getD ai.dst_port_index 0).testBit ch
        = (sm.getD ai.src_port_index 0).testBit ch)
      ∧ (((l.foldl (route_channel sm sb ai) d).buffer_in.getD ai.dst_port_index []).getD ch []
        = if (sm.getD ai.src_port_index 0).testBit ch
          then ((d.buffer_in.getD ai.dst_port_index []).getD ch []).set 0
                 (((sb.getD ai.src_port_index []).getD ch []).getD 0 0)
          else (sb.getD ai.src_port_index []).getD ch []) := by
  intro l
  induction l with
  | nil => intro _ hmem; exact absurd hmem (List.not_mem_nil ch)
  | cons x xs ih =>
    intro hnd hmem d hl1 hl2 hl3
    by_cases hx : x = ch
    · subst hx
      have hxs : x ∉ xs := (List.nodup_cons.mp hnd).1
      obtain ⟨p1, p2⟩ := route_fold_preserved sm sb ai x h64 xs hxs
        (route_channel sm sb ai d x)
      rw [List.foldl_cons]
      constructor
      · rw [p1, route_channel_mask_self _ _ _ _ _ h64 hl1]
      · rw [p2, route_channel_buffer_self _ _ _ _ _ hl2 hl3]
    · have hmem2 : ch ∈ xs := by
        rcases List.mem_cons.mp hmem with h | h
        · exact absurd h.symm hx
        · exact h
      have hnd2 : xs.Nodup := (List.nodup_cons.mp hnd).2
      have hl1s : ai.dst_port_index < (route_channel sm sb ai d x).constant_mask_in.length := by
        rw [route_channel_mask_len]; exact hl1
      have hl2s : ai.dst_port_index < (route_channel sm sb ai d x).buffer_in.length := by
        rw [route_channel_buffer_len]; exact hl2
      have hl3s : ch < ((route_channel sm sb ai d x).buffer_in.getD ai.dst_port_index []).length := by
        rw [route_channel_port_len]; exact hl3
      obtain ⟨q1, q2⟩ := ih hnd2 hmem2 (route_channel sm sb ai d x) hl1s hl2s hl3s
      rw [List.foldl_cons]
      constructor
      · rw [q1]
      · rw [q2, route_channel_buffer_other sm sb ai d x ch ai.dst_port_index
          (fun h => hx h.symm)]

/-- Claim C6 (amended): for a module with a single `AudioInput` binding
and any channel within the block's channel count (and the 64-bit mask
width), `prepare_module_audio` copies the resolved source port's
constant-mask bit into the destination port's mask bit; when that bit
is clear the destination channel buffer becomes the source channel
buffer frame for frame, and when it is set only frame 0 receives the
source's representative sample — the remaining frames keep their prior
contents (the constant is conveyed by the mask bit, not physically
broadcast). -/
theorem prepare_module_audio_routes_channel (t : Track) (track_index : Nat)
    (ctx : ProcessTrackContext) (module_index : Nat)
    (contexts : List ProcessTrackContext) (ai : AudioInput) (plug : Plugin) (ch : Nat)
    (hmod : (t.modules.get? module_index).map (fun m => m.audio_inputs) = some [ai])
    (hplug : ctx.plugins.get? module_index = some plug)
    (hch : ch < ctx.nchannels) (h64 : ch < 64)
    (hdp1 : ai.dst_port_index < plug.data.constant_mask_in.length)
    (hdp2 : ai.dst_port_index < plug.data.buffer_in.length)
    (hch2 : ch < (plug.data.buffer_in.getD ai.dst_port_index []).length) :
    ∃ q : Plugin,
      (prepare_module_audio t track_index ctx module_index contexts).plugins.get? module_index
        = some q
      ∧ ((q.data.constant_mask_in.getD ai.dst_port_index 0).testBit ch
          = ((resolve_src_data track_index ctx contexts ai).constant_mask_out.getD
              ai.src_port_index 0).testBit ch)
      ∧ ((q.data.buffer_in.getD ai.dst_port_index []).getD ch []
          = if ((resolve_src_data track_index ctx contexts ai).constant_mask_out.getD
                  ai.src_port_index 0).testBit ch
            then ((plug.data.buffer_in.getD ai.dst_port_index []).getD ch []).set 0
                   ((((resolve_src_data track_index ctx contexts ai).buffer_out.getD
                       ai.src_port_index []).getD ch []).getD 0 0)
            else ((resolve_src_data track_index ctx contexts ai).buffer_out.getD
                    ai.src_port_index []).getD ch []) := by
  obtain ⟨m0, hm0⟩ : ∃ m0, t.modules.get? module_index = some m0 := by
    cases h : t.modules.get? module_index with
    | none => rw [h] at hmod; exact Option.noConfusion hmod
    | some m0 => exact ⟨m0, rfl⟩
  have hai : m0.audio_inputs = [ai] := by
    rw [hm0] at hmod
    exact Option.some.inj hmod
  have hspec := route_fold_spec
    (resolve_src_data track_index ctx contexts ai).constant_mask_out
    (resolve_src_data track_index ctx contexts ai).buffer_out ai ch h64
    (List.range ctx.nchannels) (List.nodup_range ctx.nchannels)
    (List.mem_range.mpr hch) plug.data hdp1 hdp2 hch2
  unfold prepare_module_audio
  rw [hm0]
  show ∃ q, ((m0.audio_inputs.foldl (route_audio_input track_index contexts module_index)
    ctx).plugins.get? module_index = some q) ∧ _ ∧ _
  rw [hai, List.foldl_cons, List.foldl_nil]
  unfold route_audio_input
  dsimp only
  let fol := (List.range ctx.nchannels).foldl
    (route_channel (resolve_src_data track_index ctx contexts ai).constant_mask_out
      (resolve_src_data track_index ctx contexts ai).buffer_out ai) plug.data
  refine ⟨{ plug with data := fol }, ?_, hspec.1, hspec.2⟩
  rw [list_modify_get?_self, hplug]
  rfl

/-- Counterexample to claim C6 as stated: with the source's
constant-mask bit set (representative sample 5) and a stale
destination buffer `[0, 7]`, routing produces `[5, 7]` — the mask bit
is set and frame 0 is copied, but the sample is NOT broadcast across
the full frame range (`[5, 7] ≠ [5, 5]`): frame 1 keeps its stale
value. -/
theorem prepare_module_audio_constant_not_broadcast :
    ((prepare_module_audio track_routing 0 ctx_routing 1 []).plugins.get? 1).map
        (fun p => p.data.buffer_in) = some [[[5, 7]]] ∧
    ((prepare_module_audio track_routing 0 ctx_routing 1 []).plugins.get? 1).map
        (fun p => p.data.constant_mask_in) = some [1] ∧
    ([[[(5 : ℚ), 7]]] ≠ [[[(5 : ℚ), 5]]]) := by
  refine ⟨by decide, by decide, by decide⟩

/-- Witness for the amended C6 at the concrete routing scenario: the
destination's mask bit 0 ends set and its channel buffer ends
`[5, 7]` — representative sample at frame 0, stale frame 1 kept. -/
theorem prepare_module_audio_routes_channel_witness :
    ∃ q : Plugin,
      (prepare_module_audio track_routing 0 ctx_routing 1 []).plugins.get? 1 = some q
      ∧ (q.data.constant_mask_in.getD 0 0).testBit 0 = true
      ∧ (q.data.buffer_in.getD 0 []).getD 0 [] = [5, 7] := by
  obtain ⟨q, h1, h2, h3⟩ := prepare_module_audio_routes_channel track_routing 0 ctx_routing 1
    [] ⟨(0, 0), 0, 0⟩ dst_plugin_stale 0 (by decide) rfl (by decide) (by decide)
    (by decide) (by decide) (by decide)
  refine ⟨q, h1, ?_, ?_⟩
  · rw [h2]
    decide
  · rw [h3]
    decide

end SLC
